import Mathlib

/-!
Shallow embedding of the planning-poker room server (`src/server.js`).

The server keeps an in-memory `Map` from room code to a mutable room object;
each room holds an ordered participant list, a reveal flag and the admin's
name.  We embed the room object as a `Room` structure, its methods as pure
functions `Room → ... → Room × result`, the JS `Map` as an association list
with JS-`Map` update semantics, and each socket event handler as a function
from the directory (plus the caller's socket id and payload) to the new
directory together with the list of emitted messages.
-/

/-- First-match in-place update: replaces the first element satisfying `q`
by its image under `f`, leaving everything else untouched.  This mirrors the
JS pattern `const x = xs.find(q); if (x) mutate(x);`. -/
def updateFirst {α : Type} (q : α → Bool) (f : α → α) : List α → List α
  | [] => []
  | x :: xs => if q x then f x :: xs else x :: updateFirst q f xs

/-- First-match removal: returns the first element satisfying `q` together
with the list with that one occurrence removed, or `none` when nothing
matches.  This mirrors `findIndex` + `splice(index, 1)`. -/
def removeFirst {α : Type} (q : α → Bool) : List α → Option (α × List α)
  | [] => none
  | x :: xs =>
    if q x then some (x, xs)
    else (removeFirst q xs).map (fun r => (r.1, x :: r.2))

/-- A participant (`players` array entry in `server.js`): display name,
current vote (`none` = JS `null` = unset) and the bound socket id
(`none` = JS `null`). -/
structure Participant where
  name : String
  vote : Option String
  socketId : Option String
deriving DecidableEq

/-- A room object as built by the `createRoom` factory in `server.js`:
code, admin name, ordered player list, reveal flag. -/
structure Room where
  code : String
  admin : String
  players : List Participant
  revealed : Bool
deriving DecidableEq

/-- Result of `removePlayer`: `{removed, wasAdmin}`. -/
structure RemoveResult where
  removed : Bool
  wasAdmin : Bool
deriving DecidableEq

namespace Room

/-- The `createRoom(code, admin)` factory: the admin is the sole player,
with `vote = null` and `socketId = null`; `revealed = false`. -/
def createRoom (code admin : String) : Room :=
  { code := code
    admin := admin
    players := [{ name := admin, vote := none, socketId := none }]
    revealed := false }

/-- `addPlayer(name, socketId)`: if a player with `name` exists, update that
player's socket id; otherwise push `{name, vote: null, socketId}`. -/
def addPlayer (r : Room) (name : String) (socketId : Option String) : Room :=
  if r.players.any (fun p => p.name == name) then
    let ps := updateFirst (fun p => p.name == name)
      (fun p => { p with socketId := socketId }) r.players
    { r with players := ps }
  else
    let ps := r.players ++ [{ name := name, vote := none, socketId := socketId }]
    { r with players := ps }

/-- `removePlayer(socketId)`: find the first player whose socket id equals
`socketId`, splice it out and report `{removed: true, wasAdmin}`; otherwise
`{removed: false, wasAdmin: false}` with the list untouched. -/
def removePlayer (r : Room) (socketId : Option String) : Room × RemoveResult :=
  match removeFirst (fun p => p.socketId == socketId) r.players with
  | some (player, rest) =>
      ({ r with players := rest },
       { removed := true, wasAdmin := player.name == r.admin })
  | none => (r, { removed := false, wasAdmin := false })

/-- `setVote(name, vote)`: find the player by name; if it exists and its name
is not the admin's, store the vote and return `true`, else return `false`
without touching anything. -/
def setVote (r : Room) (name : String) (vote : Option String) : Room × Bool :=
  match r.players.find? (fun p => p.name == name) with
  | some player =>
      if player.name != r.admin then
        let ps := updateFirst (fun p => p.name == name)
          (fun p => { p with vote := vote }) r.players
        ({ r with players := ps }, true)
      else (r, false)
  | none => (r, false)

/-- JS object insertion `votes[name] = vote`: overwrite the value of an
existing key in place, otherwise append the new key. -/
def objInsert (m : List (String × Option String)) (k : String)
    (v : Option String) : List (String × Option String) :=
  if m.any (fun kv => kv.1 == k) then
    updateFirst (fun kv => kv.1 == k) (fun kv => (kv.1, v)) m
  else m ++ [(k, v)]

/-- `getVotes()`: builds the `{name: vote}` object over all non-admin
players, in player order. -/
def getVotes (r : Room) : List (String × Option String) :=
  r.players.foldl
    (fun m p => if p.name != r.admin then objInsert m p.name p.vote else m) []

/-- `revealCards()`: refuse (return `null`) unless the non-admin player list
is non-empty and every one of them has a non-null vote; otherwise set
`revealed = true` and return the non-admin name-to-vote object. -/
def revealCards (r : Room) : Room × Option (List (String × Option String)) :=
  let nonAdminPlayers := r.players.filter (fun p => p.name != r.admin)
  let allVoted := decide (0 < nonAdminPlayers.length) &&
    nonAdminPlayers.all (fun p => p.vote.isSome)
  if allVoted then
    let r2 : Room := { r with revealed := true }
    (r2, some r2.getVotes)
  else (r, none)

/-- `reset()`: clear `revealed` and set every non-admin player's vote back
to `null`. -/
def reset (r : Room) : Room :=
  { r with
    revealed := false
    players := r.players.map
      (fun p => if p.name != r.admin then { p with vote := none } else p) }

end Room

/-- One entry of the broadcast `players` array in a `roomState` payload:
name plus the (possibly redacted) vote field. -/
structure PlayerView where
  name : String
  vote : Option String
deriving DecidableEq

/-- The `roomState` payload produced by `getState()`. -/
structure RoomState where
  code : String
  admin : String
  players : List PlayerView
  revealed : Bool
  votes : Option (List (String × Option String))
deriving DecidableEq

namespace Room

/-- `getState()`: pure projection.  Per player the vote is shown raw when
`revealed`, otherwise redacted to the opaque marker `"voted"` (or `null`
when unset); the `votes` object is present only when `revealed`. -/
def getState (r : Room) : RoomState :=
  { code := r.code
    admin := r.admin
    players := r.players.map (fun p =>
      { name := p.name
        vote := if r.revealed then p.vote
                else if p.vote.isSome then some "voted" else none })
    revealed := r.revealed
    votes := if r.revealed then some r.getVotes else none }

end Room

/-- Messages a handler emits: either privately to one socket
(`socket.emit`) or broadcast to the room group (`io.to(code).emit`). -/
inductive ServerMsg where
  | errorTo (sid : String) (msg : String)
  | roomCreatedTo (sid : String) (roomCode : String) (admin : String)
  | roomJoinedTo (sid : String) (roomCode : String) (admin : String)
  | roomStateTo (roomCode : String) (st : RoomState)
  | cardsRevealedTo (roomCode : String) (votes : List (String × Option String))
  | roomResetTo (roomCode : String)
  | adminLeftTo (roomCode : String)
deriving DecidableEq

/-- The room directory (`const rooms = new Map()`), embedded as an
association list in insertion order. -/
abbrev Directory := List (String × Room)

/-- `rooms.get(code)`. -/
def mapGet (m : Directory) (k : String) : Option Room :=
  (m.find? (fun kv => kv.1 == k)).map Prod.snd

/-- `rooms.has(code)`. -/
def mapHas (m : Directory) (k : String) : Bool :=
  m.any (fun kv => kv.1 == k)

/-- `rooms.set(code, room)`: JS `Map.set` replaces the value of an existing
key in place, otherwise appends a new entry. -/
def mapSet (m : Directory) (k : String) (v : Room) : Directory :=
  if mapHas m k then
    updateFirst (fun kv => kv.1 == k) (fun kv => (kv.1, v)) m
  else m ++ [(k, v)]

/-- `rooms.delete(code)`. -/
def mapDelete (m : Directory) (k : String) : Directory :=
  match removeFirst (fun kv => kv.1 == k) m with
  | some (_, rest) => rest
  | none => m

/-- The `createRoom` socket event handler: refuse when the code is taken,
otherwise build the room, bind the admin's socket id into `players[0]`,
register it and emit the created-ack plus the initial room state. -/
def handleCreateRoom (rooms : Directory) (sid userName roomCode : String) :
    Directory × List ServerMsg :=
  if mapHas rooms roomCode then
    (rooms, [.errorTo sid "Room already exists"])
  else
    let room0 := Room.createRoom roomCode userName
    let ps := room0.players.modifyHead (fun p => { p with socketId := some sid })
    let room : Room := { room0 with players := ps }
    (mapSet rooms roomCode room,
     [.roomCreatedTo sid roomCode userName,
      .roomStateTo roomCode room.getState])

/-- The `joinRoom` socket event handler: missing room and admin-name
collision are private errors; otherwise add-or-rebind and broadcast. -/
def handleJoinRoom (rooms : Directory) (sid userName roomCode : String) :
    Directory × List ServerMsg :=
  match mapGet rooms roomCode with
  | none => (rooms, [.errorTo sid "Room does not exist"])
  | some room =>
    if userName == room.admin then
      (rooms, [.errorTo sid "Name already taken (admin)"])
    else
      let room2 := room.addPlayer userName (some sid)
      (mapSet rooms roomCode room2,
       [.roomJoinedTo sid roomCode room2.admin,
        .roomStateTo roomCode room2.getState])

/-- The `vote` socket event handler: silently ignore a missing room or a
socket that is not bound to a non-admin player; otherwise record the vote
and broadcast the new state. -/
def handleVote (rooms : Directory) (sid roomCode : String)
    (vote : Option String) : Directory × List ServerMsg :=
  match mapGet rooms roomCode with
  | none => (rooms, [])
  | some room =>
    match room.players.find? (fun p => p.socketId == some sid) with
    | some player =>
      if player.name != room.admin then
        let room2 := (room.setVote player.name vote).1
        (mapSet rooms roomCode room2, [.roomStateTo roomCode room2.getState])
      else (rooms, [])
    | none => (rooms, [])

/-- The `revealCards` socket event handler: only a socket bound to the admin
gets anywhere; a refused reveal is a private error, a successful one
broadcasts the new state and the vote mapping. -/
def handleRevealCards (rooms : Directory) (sid roomCode : String) :
    Directory × List ServerMsg :=
  match mapGet rooms roomCode with
  | none => (rooms, [])
  | some room =>
    match room.players.find? (fun p => p.socketId == some sid) with
    | some player =>
      if player.name == room.admin then
        match room.revealCards with
        | (room2, some votes) =>
          (mapSet rooms roomCode room2,
           [.roomStateTo roomCode room2.getState,
            .cardsRevealedTo roomCode votes])
        | (_, none) =>
          (rooms,
           [.errorTo sid "Cannot reveal cards. Not all players have voted."])
      else (rooms, [])
    | none => (rooms, [])

/-- The `resetRoom` socket event handler: only a socket bound to the admin
resets; everyone else is silently ignored. -/
def handleResetRoom (rooms : Directory) (sid roomCode : String) :
    Directory × List ServerMsg :=
  match mapGet rooms roomCode with
  | none => (rooms, [])
  | some room =>
    match room.players.find? (fun p => p.socketId == some sid) with
    | some player =>
      if player.name == room.admin then
        let room2 := room.reset
        (mapSet rooms roomCode room2,
         [.roomStateTo roomCode room2.getState, .roomResetTo roomCode])
      else (rooms, [])
    | none => (rooms, [])

/-- The `leaveRoom` socket event handler: remove the caller's player from
the room; if the admin left, announce `adminLeft` and destroy the room; if
the room became empty, destroy it silently; otherwise broadcast the new
state.  A socket with no player in the room is a silent no-op. -/
def handleLeaveRoom (rooms : Directory) (sid roomCode : String) :
    Directory × List ServerMsg :=
  match mapGet rooms roomCode with
  | none => (rooms, [])
  | some room =>
    let res := room.removePlayer (some sid)
    if res.2.removed then
      if res.2.wasAdmin then
        (mapDelete rooms roomCode, [.adminLeftTo roomCode])
      else if res.1.players.length == 0 then
        (mapDelete rooms roomCode, [])
      else
        (mapSet rooms roomCode res.1, [.roomStateTo roomCode res.1.getState])
    else (rooms, [])

/-- The `disconnect` handler: iterate over every room, remove the socket's
player, and apply the same branching as `leaveRoom` per affected room. -/
def handleDisconnect : Directory → String → Directory × List ServerMsg
  | [], _ => ([], [])
  | (code, room) :: rest, sid =>
    let res := room.removePlayer (some sid)
    let tail := handleDisconnect rest sid
    if res.2.removed then
      if res.2.wasAdmin then
        (tail.1, .adminLeftTo code :: tail.2)
      else if res.1.players.length == 0 then
        (tail.1, tail.2)
      else
        ((code, res.1) :: tail.1, .roomStateTo code res.1.getState :: tail.2)
    else ((code, room) :: tail.1, tail.2)

/-- The per-room branching that the disconnect handler applies: `none` when
the room ends up deleted from the directory, `some` of the room object the
directory holds afterwards. -/
def disconnectRoomUpdate (room : Room) (sid : String) : Option Room :=
  let res := room.removePlayer (some sid)
  if res.2.removed then
    if res.2.wasAdmin then none
    else if res.1.players.length == 0 then none
    else some res.1
  else some room

/-- The reveal invariant the spec states for a room: whenever `revealed` is
true, every non-admin participant holds a non-null vote. -/
def VoteInvariant (r : Room) : Prop :=
  r.revealed = true → ∀ p ∈ r.players, p.name ≠ r.admin → p.vote ≠ none

/-- Reachable room in which a reveal succeeded and then a new player joined:
built by create, join "B", vote "5", reveal, join "C". -/
def cexRevealJoin : Room :=
  (((((Room.createRoom "R" "A").addPlayer "B" (some "s2")).setVote "B"
    (some "5")).1.revealCards).1).addPlayer "C" (some "s3")

/-- Reachable room in which a reveal succeeded and then the voter cleared
the vote by voting `null`. -/
def cexRevealNullVote : Room :=
  ((((((Room.createRoom "R" "A").addPlayer "B" (some "s2")).setVote "B"
    (some "5")).1.revealCards).1).setVote "B" none).1

/-- Room in which two participants carry the same socket id, as produced by
one socket joining under two distinct names. -/
def cexTwoSameSid : Room :=
  { code := "R", admin := "A"
    players := [{ name := "A", vote := none, socketId := some "sa" },
                { name := "B", vote := none, socketId := some "s" },
                { name := "C", vote := none, socketId := some "s" }]
    revealed := false }

/-- Concrete room for handler-level witnesses: admin "A" on socket "sa",
player "B" on socket "sb", nothing voted, unrevealed. -/
def roomW : Room :=
  { code := "R", admin := "A"
    players := [{ name := "A", vote := none, socketId := some "sa" },
                { name := "B", vote := none, socketId := some "sb" }]
    revealed := false }

/-- Concrete one-room directory holding `roomW` under code "R". -/
def dirW : Directory := [("R", roomW)]

/-! ### Toolkit: first-match decomposition lemmas -/

theorem updateFirst_of_forall_neg {α : Type} (q : α → Bool) (f : α → α) :
    ∀ l : List α, (∀ a ∈ l, q a = false) → updateFirst q f l = l
  | [], _ => rfl
  | x :: xs, h => by
    have hx : q x = false := h x (by simp)
    have ih := updateFirst_of_forall_neg q f xs (fun a ha => h a (by simp [ha]))
    simp [updateFirst, hx, ih]

theorem updateFirst_append_cons {α : Type} (q : α → Bool) (f : α → α) :
    ∀ (s : List α) (x : α) (t : List α), (∀ a ∈ s, q a = false) → q x = true →
      updateFirst q f (s ++ x :: t) = s ++ f x :: t
  | [], x, t, _, hx => by simp [updateFirst, hx]
  | a :: s, x, t, hs, hx => by
    have ha : q a = false := hs a (by simp)
    have ih := updateFirst_append_cons q f s x t
      (fun b hb => hs b (by simp [hb])) hx
    simp [updateFirst, ha, ih]

theorem removeFirst_of_forall_neg {α : Type} (q : α → Bool) :
    ∀ l : List α, (∀ a ∈ l, q a = false) → removeFirst q l = none
  | [], _ => rfl
  | x :: xs, h => by
    have hx : q x = false := h x (by simp)
    have ih := removeFirst_of_forall_neg q xs (fun a ha => h a (by simp [ha]))
    simp [removeFirst, hx, ih]

theorem removeFirst_append_cons {α : Type} (q : α → Bool) :
    ∀ (s : List α) (x : α) (t : List α), (∀ a ∈ s, q a = false) → q x = true →
      removeFirst q (s ++ x :: t) = some (x, s ++ t)
  | [], x, t, _, hx => by simp [removeFirst, hx]
  | a :: s, x, t, hs, hx => by
    have ha : q a = false := hs a (by simp)
    have ih := removeFirst_append_cons q s x t
      (fun b hb => hs b (by simp [hb])) hx
    simp [removeFirst, ha, ih]

theorem removeFirst_decomp {α : Type} (q : α → Bool) :
    ∀ (l : List α) (x : α) (l2 : List α), removeFirst q l = some (x, l2) →
      ∃ s t, l = s ++ x :: t ∧ l2 = s ++ t ∧
        (∀ a ∈ s, q a = false) ∧ q x = true
  | [], x, l2, h => by simp [removeFirst] at h
  | a :: l, x, l2, h => by
    by_cases ha : q a = true
    · simp [removeFirst, ha] at h
      exact ⟨[], l, by simp [h.1], by simp [h.2], by simp, h.1 ▸ ha⟩
    · have ha2 : q a = false := by simpa using ha
      rw [show removeFirst q (a :: l) =
            (removeFirst q l).map (fun r => (r.1, a :: r.2)) by
          simp [removeFirst, ha2]] at h
      cases hrm : removeFirst q l with
      | none => rw [hrm] at h; simp at h
      | some pr =>
        obtain ⟨y, l3⟩ := pr
        rw [hrm] at h
        have h2 := Option.some_inj.mp h
        have hx : y = x := congrArg Prod.fst h2
        have hl2 : a :: l3 = l2 := congrArg Prod.snd h2
        subst hx
        rcases removeFirst_decomp q l y l3 hrm with ⟨s, t, hl, hl3, hs, hq⟩
        refine ⟨a :: s, t, by simp [hl], ?_, ?_, hq⟩
        · simp [← hl2, hl3]
        · intro b hb
          rcases List.mem_cons.mp hb with rfl | hbs
          · exact ha2
          · exact hs b hbs

theorem find?_decomp {α : Type} (q : α → Bool) :
    ∀ (l : List α) (x : α), l.find? q = some x →
      ∃ s t, l = s ++ x :: t ∧ (∀ a ∈ s, q a = false) ∧ q x = true
  | [], x, h => by simp at h
  | a :: l, x, h => by
    by_cases ha : q a = true
    · rw [List.find?_cons_of_pos _ ha] at h
      exact ⟨[], l, by simp [← Option.some_inj.mp h], by simp,
        (Option.some_inj.mp h) ▸ ha⟩
    · have ha2 : q a = false := by simpa using ha
      rw [List.find?_cons_of_neg _ (by simp [ha2])] at h
      rcases find?_decomp q l x h with ⟨s, t, hl, hs, hq⟩
      refine ⟨a :: s, t, by simp [hl], ?_, hq⟩
      intro b hb
      rcases List.mem_cons.mp hb with rfl | hbs
      · exact ha2
      · exact hs b hbs

theorem exists_first_match {α : Type} (q : α → Bool) :
    ∀ l : List α, l.any q = true →
      ∃ s x t, l = s ++ x :: t ∧ (∀ a ∈ s, q a = false) ∧ q x = true
  | [], h => by simp at h
  | a :: l, h => by
    by_cases ha : q a = true
    · exact ⟨[], a, l, rfl, by simp, ha⟩
    · have ha2 : q a = false := by simpa using ha
      have hl : l.any q = true := by simpa [List.any_cons, ha2] using h
      rcases exists_first_match q l hl with ⟨s, x, t, hlt, hs, hq⟩
      refine ⟨a :: s, x, t, by simp [hlt], ?_, hq⟩
      intro b hb
      rcases List.mem_cons.mp hb with rfl | hbs
      · exact ha2
      · exact hs b hbs

theorem forall_neg_of_removeFirst_eq_none {α : Type} (q : α → Bool) :
    ∀ l : List α, removeFirst q l = none → ∀ a ∈ l, q a = false
  | [], _, a, ha => by simp at ha
  | x :: xs, h, a, ha => by
    by_cases hx : q x = true
    · simp [removeFirst, hx] at h
    · have hx2 : q x = false := by simpa using hx
      rw [show removeFirst q (x :: xs) =
            (removeFirst q xs).map (fun r => (r.1, x :: r.2)) by
          simp [removeFirst, hx2]] at h
      have hrec : removeFirst q xs = none := by
        cases hrm : removeFirst q xs with
        | none => rfl
        | some pr => rw [hrm] at h; simp at h
      rcases List.mem_cons.mp ha with rfl | has
      · exact hx2
      · exact forall_neg_of_removeFirst_eq_none q xs hrec a has

theorem find?_append_of_forall_neg {α : Type} (p : α → Bool) :
    ∀ (s l : List α), (∀ a ∈ s, p a = false) → (s ++ l).find? p = l.find? p
  | [], l, _ => rfl
  | a :: s, l, h => by
    have ha : p a = false := h a (by simp)
    rw [List.cons_append, List.find?_cons_of_neg _ (by simp [ha])]
    exact find?_append_of_forall_neg p s l (fun b hb => h b (by simp [hb]))

theorem mapGet_cons (k c : String) (r : Room) (m : Directory) :
    mapGet ((k, r) :: m) c = if k == c then some r else mapGet m c := by
  by_cases hk : (k == c) = true
  · simp [mapGet, List.find?_cons_of_pos, hk]
  · have hk2 : (k == c) = false := by simpa using hk
    simp [mapGet, List.find?_cons_of_neg, hk2]

theorem mapGet_eq_none_of_forall_ne (m : Directory) (c : String)
    (h : ∀ kv ∈ m, kv.1 ≠ c) : mapGet m c = none := by
  have : m.find? (fun kv => kv.1 == c) = none := by
    rw [List.find?_eq_none]
    intro kv hkv
    simp only [beq_iff_eq]
    exact h kv hkv
  simp [mapGet, this]

theorem mapGet_mapSet_self (m : Directory) (k : String) (v : Room) :
    mapGet (mapSet m k v) k = some v := by
  by_cases hh : mapHas m k = true
  · have hh3 : m.any (fun kv : String × Room => kv.1 == k) = true := hh
    rcases exists_first_match _ m hh3 with ⟨s, x, t, hm, hs, hx⟩
    rw [mapSet, if_pos hh, hm, updateFirst_append_cons _ _ s x t hs hx]
    rw [mapGet, find?_append_of_forall_neg _ s _ hs]
    rw [show List.find? (fun a : String × Room => a.1 == k) ((x.1, v) :: t)
          = some (x.1, v) from List.find?_cons_of_pos t hx]
    rfl
  · have hh2 : mapHas m k = false := by simpa using hh
    rw [mapSet, if_neg (by simp [hh2])]
    have hall : ∀ kv ∈ m, (fun kv : String × Room => kv.1 == k) kv = false := by
      intro kv hkv
      by_contra hc
      have : mapHas m k = true := by
        simp only [mapHas, List.any_eq_true]
        exact ⟨kv, hkv, by simpa using hc⟩
      simp [this] at hh2
    rw [mapGet, find?_append_of_forall_neg _ m _ hall]
    rw [show List.find? (fun a : String × Room => a.1 == k) [(k, v)]
          = some (k, v) from List.find?_cons_of_pos [] (by simp)]
    rfl

theorem mapGet_mapDelete_self (m : Directory) (k : String)
    (hnd : (m.map Prod.fst).Nodup) : mapGet (mapDelete m k) k = none := by
  rw [mapDelete]
  cases hrm : removeFirst (fun kv => kv.1 == k) m with
  | none =>
    exact mapGet_eq_none_of_forall_ne m k (fun kv hkv => by
      have := forall_neg_of_removeFirst_eq_none _ m hrm kv hkv
      simpa using this)
  | some pr =>
    obtain ⟨x, rest⟩ := pr
    rcases removeFirst_decomp _ m x rest hrm with ⟨s, t, hm, hrest, hs, hx⟩
    have hxk : x.1 = k := by simpa using hx
    subst hm
    have hnd2 : (s.map Prod.fst ++ x.1 :: t.map Prod.fst).Nodup := by
      simpa using hnd
    have hxt : x.1 ∉ t.map Prod.fst :=
      (List.nodup_cons.mp (List.nodup_append.mp hnd2).2.1).1
    refine mapGet_eq_none_of_forall_ne _ k ?_
    intro kv hkv
    rw [hrest] at hkv
    rcases List.mem_append.mp hkv with hks | hkt
    · have := hs kv hks
      simpa using this
    · intro hc
      exact hxt (by rw [hxk, ← hc]; exact List.mem_map_of_mem Prod.fst hkt)

theorem objInsert_fresh (m : List (String × Option String)) (k : String)
    (v : Option String) (h : ∀ kv ∈ m, kv.1 ≠ k) :
    Room.objInsert m k v = m ++ [(k, v)] := by
  have hany : ¬(m.any (fun kv => kv.1 == k) = true) := by
    simp only [List.any_eq_true, beq_iff_eq]
    rintro ⟨kv, hkv, hk⟩
    exact h kv hkv hk
  rw [Room.objInsert, if_neg hany]


theorem getVotes_foldl (admin : String) :
    ∀ (ps : List Participant) (acc : List (String × Option String)),
      ((ps.filter (fun p => p.name != admin)).map Participant.name).Nodup →
      (∀ p ∈ ps, p.name ≠ admin → ∀ kv ∈ acc, kv.1 ≠ p.name) →
      ps.foldl
          (fun m p => if p.name != admin then Room.objInsert m p.name p.vote
                      else m) acc
        = acc ++ (ps.filter (fun p => p.name != admin)).map
            (fun p => (p.name, p.vote))
  | [], acc, _, _ => by simp
  | p :: ps, acc, hnd, hdisj => by
    by_cases hp : p.name = admin
    · have hb : (p.name != admin) = false := by simp [hp]
      rw [List.foldl_cons, if_neg (by simp [hb])]
      have hnd2 :
          ((ps.filter (fun q => q.name != admin)).map Participant.name).Nodup := by
        simpa [List.filter_cons, hb] using hnd
      have hdisj2 : ∀ q ∈ ps, q.name ≠ admin → ∀ kv ∈ acc, kv.1 ≠ q.name :=
        fun q hq => hdisj q (by simp [hq])
      rw [getVotes_foldl admin ps acc hnd2 hdisj2]
      simp [List.filter_cons, hb]
    · have hb : (p.name != admin) = true := by simp [hp]
      have hfc : (p :: ps).filter (fun q => q.name != admin)
          = p :: ps.filter (fun q => q.name != admin) := by
        simp [List.filter_cons, hb]
      have hnd2 : (p.name ::
          (ps.filter (fun q => q.name != admin)).map Participant.name).Nodup := by
        rw [hfc] at hnd
        simpa using hnd
      have hpn : p.name ∉
          (ps.filter (fun q => q.name != admin)).map Participant.name :=
        (List.nodup_cons.mp hnd2).1
      have hins : Room.objInsert acc p.name p.vote = acc ++ [(p.name, p.vote)] :=
        objInsert_fresh acc p.name p.vote (hdisj p (by simp) hp)
      rw [List.foldl_cons, if_pos hb, hins]
      have hdisj2 : ∀ q ∈ ps, q.name ≠ admin →
          ∀ kv ∈ acc ++ [(p.name, p.vote)], kv.1 ≠ q.name := by
        intro q hq hqa kv hkv
        rcases List.mem_append.mp hkv with hka | hkp
        · exact hdisj q (by simp [hq]) hqa kv hka
        · have : kv = (p.name, p.vote) := by simpa using hkp
          subst this
          intro hc
          apply hpn
          rw [show p.name = q.name from hc]
          exact List.mem_map_of_mem Participant.name
            (List.mem_filter.mpr ⟨hq, by simp [hqa]⟩)
      rw [getVotes_foldl admin ps (acc ++ [(p.name, p.vote)])
        (List.nodup_cons.mp hnd2).2 hdisj2]
      simp [hfc]

theorem getVotes_eq (r : Room)
    (hnd : ((r.players.filter (fun p => p.name != r.admin)).map
      Participant.name).Nodup) :
    r.getVotes = (r.players.filter (fun p => p.name != r.admin)).map
      (fun p => (p.name, p.vote)) := by
  rw [Room.getVotes, getVotes_foldl r.admin r.players [] hnd (by simp)]
  simp

theorem mapGet_handleDisconnect_eq_none (sid c : String) :
    ∀ m : Directory, (∀ kv ∈ m, kv.1 ≠ c) →
      mapGet (handleDisconnect m sid).1 c = none
  | [], _ => by simp [handleDisconnect, mapGet]
  | (k, room) :: m, h => by
    have hk : k ≠ c := by
      have := h (k, room) (by simp)
      simpa using this
    have ih := mapGet_handleDisconnect_eq_none sid c m
      (fun kv hkv => h kv (by simp [hkv]))
    have hkb : (k == c) = false := by simp [hk]
    simp only [handleDisconnect]
    by_cases h1 : (room.removePlayer (some sid)).2.removed = true
    · by_cases h2 : (room.removePlayer (some sid)).2.wasAdmin = true
      · simp [h1, h2, ih]
      · by_cases h3 : ((room.removePlayer (some sid)).1.players.length == 0) = true
        · simp [h1, h2, h3, ih]
        · simp [h1, h2, h3, mapGet_cons, hkb, ih]
    · simp [h1, mapGet_cons, hkb, ih]

theorem mapGet_handleDisconnect (sid c : String) :
    ∀ m : Directory, (m.map Prod.fst).Nodup →
      mapGet (handleDisconnect m sid).1 c
        = (mapGet m c).bind (fun room => disconnectRoomUpdate room sid)
  | [], _ => by simp [handleDisconnect, mapGet]
  | (k, room) :: m, hnd => by
    have hnd2 : (k :: m.map Prod.fst).Nodup := by simpa using hnd
    have hnotin : k ∉ m.map Prod.fst := (List.nodup_cons.mp hnd2).1
    have hndm : (m.map Prod.fst).Nodup := (List.nodup_cons.mp hnd2).2
    have ih := mapGet_handleDisconnect sid c m hndm
    by_cases hkc : k = c
    · subst hkc
      have hnone : ∀ kv ∈ m, kv.1 ≠ k := by
        intro kv hkv hc
        exact hnotin (hc ▸ List.mem_map_of_mem Prod.fst hkv)
      have htail := mapGet_handleDisconnect_eq_none sid k m hnone
      rw [show mapGet ((k, room) :: m) k = some room by simp [mapGet_cons]]
      simp only [handleDisconnect, Option.some_bind]
      by_cases h1 : (room.removePlayer (some sid)).2.removed = true
      · by_cases h2 : (room.removePlayer (some sid)).2.wasAdmin = true
        · simp [disconnectRoomUpdate, h1, h2, htail]
        · by_cases h3 :
              ((room.removePlayer (some sid)).1.players.length == 0) = true
          · simp [disconnectRoomUpdate, h1, h2, h3, htail]
          · simp [disconnectRoomUpdate, h1, h2, h3, mapGet_cons]
      · simp [disconnectRoomUpdate, h1, mapGet_cons]
    · have hkb : (k == c) = false := by simp [hkc]
      rw [show mapGet ((k, room) :: m) c = mapGet m c by simp [mapGet_cons, hkb]]
      simp only [handleDisconnect]
      by_cases h1 : (room.removePlayer (some sid)).2.removed = true
      · by_cases h2 : (room.removePlayer (some sid)).2.wasAdmin = true
        · simp [h1, h2, ih]
        · by_cases h3 :
              ((room.removePlayer (some sid)).1.players.length == 0) = true
          · simp [h1, h2, h3, ih]
          · simp [h1, h2, h3, mapGet_cons, hkb, ih]
      · simp [h1, mapGet_cons, hkb, ih]

/-- C9: after `reset()` the revealed flag is false and every non-admin
participant's vote is unset, regardless of prior state, and reset is
idempotent: resetting twice yields the same state as resetting once. -/
theorem reset_spec (r : Room) :
    r.reset.revealed = false
    ∧ (∀ p ∈ r.reset.players, p.name ≠ r.reset.admin → p.vote = none)
    ∧ r.reset.reset = r.reset := by
  refine ⟨rfl, ?_, ?_⟩
  · intro p hp hpn
    simp only [Room.reset, List.mem_map] at hp
    obtain ⟨q, hq, rfl⟩ := hp
    by_cases hqa : q.name = r.admin
    · exfalso
      apply hpn
      simp [hqa, Room.reset]
    · simp [hqa]
  · show Room.mk r.code r.admin
        ((r.players.map (fun p =>
          if p.name != r.admin then { p with vote := none } else p)).map
          (fun p => if p.name != r.admin then { p with vote := none } else p))
        false
      = Room.mk r.code r.admin
        (r.players.map (fun p =>
          if p.name != r.admin then { p with vote := none } else p))
        false
    congr 1
    rw [List.map_map]
    apply List.map_congr_left
    intro q _
    by_cases hqa : q.name = r.admin
    · simp [Function.comp, hqa]
    · simp [Function.comp, hqa]

/-- C9 witness: the theorem applied to a concrete revealed room with a cast
vote, with the membership and non-admin hypotheses discharged there. -/
theorem reset_spec_witness :
    ((Room.mk "R" "A" [⟨"A", none, none⟩, ⟨"B", some "5", some "s"⟩]
        true).reset.reset
      = (Room.mk "R" "A" [⟨"A", none, none⟩, ⟨"B", some "5", some "s"⟩]
        true).reset)
    ∧ (Participant.mk "B" none (some "s")).vote = none :=
  ⟨(reset_spec (Room.mk "R" "A" [⟨"A", none, none⟩,
      ⟨"B", some "5", some "s"⟩] true)).2.2,
   (reset_spec (Room.mk "R" "A" [⟨"A", none, none⟩,
      ⟨"B", some "5", some "s"⟩] true)).2.1
    ⟨"B", none, some "s"⟩ (by decide) (by decide)⟩

/-- C8: `setVote(name, vote)` returns false and leaves the room unchanged
exactly when the name is the admin's or no participant carries it;
otherwise it stores the given value (any value, no validation) into the
first participant with that name, returns true, and changes nothing else. -/
theorem setVote_spec (r : Room) (name : String) (v : Option String) :
    ((r.setVote name v).2 = false ↔
      name = r.admin ∨ ∀ p ∈ r.players, p.name ≠ name)
    ∧ ((r.setVote name v).2 = false → (r.setVote name v).1 = r)
    ∧ ((r.setVote name v).2 = true →
        ∃ s p t, r.players = s ++ p :: t ∧ (∀ a ∈ s, a.name ≠ name) ∧
          p.name = name ∧ name ≠ r.admin ∧
          (r.setVote name v).1
            = { r with players := s ++ { p with vote := v } :: t }) := by
  cases hf : r.players.find? (fun p => p.name == name) with
  | none =>
    have hall : ∀ p ∈ r.players, p.name ≠ name := by
      intro p hp
      have := List.find?_eq_none.mp hf p hp
      simpa using this
    refine ⟨⟨fun _ => Or.inr hall, fun _ => ?_⟩, fun _ => ?_, fun h => ?_⟩
    · simp [Room.setVote, hf]
    · simp [Room.setVote, hf]
    · rw [Room.setVote, hf] at h
      simp at h
  | some p =>
    have hpname : p.name = name := by
      have := List.find?_some hf
      simpa using this
    by_cases hadm : name = r.admin
    · have hbne : (p.name != r.admin) = false := by simp [hpname, hadm]
      refine ⟨⟨fun _ => Or.inl hadm, fun _ => ?_⟩, fun _ => ?_, fun h => ?_⟩
      · simp [Room.setVote, hf, hbne]
      · simp [Room.setVote, hf, hbne]
      · rw [Room.setVote, hf] at h
        simp [hbne] at h
    · have hbne : (p.name != r.admin) = true := by simp [hpname, hadm]
      have hmem : p ∈ r.players := List.mem_of_find?_eq_some hf
      have htrue : (r.setVote name v).2 = true := by
        simp [Room.setVote, hf, hbne]
      refine ⟨⟨fun hfalse => ?_, fun hor => ?_⟩, fun hfalse => ?_, fun _ => ?_⟩
      · rw [htrue] at hfalse
        exact absurd hfalse (by simp)
      · exfalso
        rcases hor with h1 | h2
        · exact hadm h1
        · exact h2 p hmem hpname
      · rw [htrue] at hfalse
        exact absurd hfalse (by simp)
      · rcases find?_decomp _ r.players p hf with ⟨s, t, hsplit, hs, _⟩
        refine ⟨s, p, t, hsplit, ?_, hpname, hadm, ?_⟩
        · intro a ha
          have := hs a ha
          simpa using this
        · simp only [Room.setVote, hf]
          rw [if_pos hbne, hsplit]
          rw [updateFirst_append_cons _ _ s p t hs (by simp [hpname])]

/-- C8 witness: the theorem applied to a concrete room with the admin's
name, with the failure hypothesis discharged there. -/
theorem setVote_spec_witness :
    ((Room.mk "R" "A" [⟨"A", none, none⟩, ⟨"B", none, some "s"⟩]
        false).setVote "A" (some "13")).1
      = Room.mk "R" "A" [⟨"A", none, none⟩, ⟨"B", none, some "s"⟩] false :=
  (setVote_spec (Room.mk "R" "A" [⟨"A", none, none⟩, ⟨"B", none, some "s"⟩]
    false) "A" (some "13")).2.1 (by decide)

/-- C3: snapshot redaction.  For an unrevealed room the snapshot shows, per
participant, `null` when the vote is unset and the opaque marker `"voted"`
when it is set, and carries no `votes` object; two unrevealed rooms that
differ only in the concrete non-null vote values produce identical
snapshots.  For a revealed room the snapshot carries each raw vote and the
full non-admin vote mapping. -/
theorem snapshot_redaction (r : Room) :
    (r.revealed = false →
      r.getState.players = r.players.map (fun p =>
        { name := p.name
          vote := if p.vote = none then none else some "voted" })
      ∧ r.getState.votes = none)
    ∧ (r.revealed = true →
      r.getState.players = r.players.map (fun p => ⟨p.name, p.vote⟩)
      ∧ r.getState.votes = some r.getVotes)
    ∧ (∀ r2 : Room, r.revealed = false → r2.revealed = false →
        r.code = r2.code → r.admin = r2.admin →
        List.Forall₂ (fun p q : Participant =>
          p.name = q.name ∧ p.vote.isSome = q.vote.isSome)
          r.players r2.players →
        r.getState = r2.getState) := by
  refine ⟨fun hrev => ⟨?_, ?_⟩, fun hrev => ⟨?_, ?_⟩, ?_⟩
  · simp only [Room.getState, hrev]
    apply List.map_congr_left
    intro p _
    cases p.vote <;> simp
  · simp [Room.getState, hrev]
  · simp [Room.getState, hrev]
  · simp [Room.getState, hrev]
  · intro r2 hrev hrev2 hcode hadmin hf
    have hmap : ∀ (l1 l2 : List Participant),
        List.Forall₂ (fun p q : Participant =>
          p.name = q.name ∧ p.vote.isSome = q.vote.isSome) l1 l2 →
        l1.map (fun p : Participant =>
          (⟨p.name, if p.vote.isSome then some "voted" else none⟩ : PlayerView))
        = l2.map (fun p : Participant =>
          (⟨p.name, if p.vote.isSome then some "voted" else none⟩ :
            PlayerView)) := by
      intro l1 l2 h
      induction h with
      | nil => rfl
      | cons hpq _ ih =>
        simp only [List.map_cons, ih]
        congr 1
        rw [hpq.1, hpq.2]
    simp [Room.getState, hrev, hrev2, hcode, hadmin,
      hmap r.players r2.players hf]

/-- C3 witness: the theorem applied to two concrete unrevealed rooms whose
only difference is Bob's concrete vote value, discharging the agreement
hypotheses there. -/
theorem snapshot_redaction_witness :
    (Room.mk "R" "A" [⟨"A", none, none⟩, ⟨"B", some "5", some "s"⟩]
      false).getState
    = (Room.mk "R" "A" [⟨"A", none, none⟩, ⟨"B", some "13", some "s"⟩]
      false).getState :=
  (snapshot_redaction (Room.mk "R" "A" [⟨"A", none, none⟩,
    ⟨"B", some "5", some "s"⟩] false)).2.2
    (Room.mk "R" "A" [⟨"A", none, none⟩, ⟨"B", some "13", some "s"⟩] false)
    rfl rfl rfl rfl
    (by refine List.Forall₂.cons (by simp) (List.Forall₂.cons (by simp) ?_)
        exact List.Forall₂.nil)

/-- C4: join never duplicates a name.  A fresh room has unique names;
`addPlayer` preserves name uniqueness; adding an existing name rebinds that
participant's socket id only (no vote change, no reveal change, no new
entry), and adding a new name appends a participant with the vote unset. -/
theorem addPlayer_unique_names (r : Room) (name : String)
    (sid : Option String) :
    (∀ c0 a0 : String,
      ((Room.createRoom c0 a0).players.map Participant.name).Nodup)
    ∧ ((r.players.map Participant.name).Nodup →
      ((r.addPlayer name sid).players.map Participant.name).Nodup)
    ∧ (r.players.any (fun p => p.name == name) = true →
      ∃ s p t, r.players = s ++ p :: t ∧ (∀ a ∈ s, a.name ≠ name) ∧
        p.name = name ∧
        r.addPlayer name sid
          = { r with players := s ++ { p with socketId := sid } :: t })
    ∧ (r.players.any (fun p => p.name == name) = false →
      r.addPlayer name sid
        = { r with players :=
            r.players ++ [{ name := name, vote := none, socketId := sid }] }) := by
  have hsplit : r.players.any (fun p => p.name == name) = true →
      ∃ s p t, r.players = s ++ p :: t ∧ (∀ a ∈ s, a.name ≠ name) ∧
        p.name = name ∧
        r.addPlayer name sid
          = { r with players := s ++ { p with socketId := sid } :: t } := by
    intro hany
    rcases exists_first_match _ r.players hany with ⟨s, p, t, hps, hs, hp⟩
    refine ⟨s, p, t, hps, ?_, by simpa using hp, ?_⟩
    · intro a ha
      have := hs a ha
      simpa using this
    · rw [Room.addPlayer, if_pos hany, hps]
      rw [updateFirst_append_cons _ _ s p t hs hp]
  have happend : r.players.any (fun p => p.name == name) = false →
      r.addPlayer name sid
        = { r with players :=
            r.players ++ [{ name := name, vote := none, socketId := sid }] } := by
    intro hany
    rw [Room.addPlayer, if_neg (by simp [hany])]
  refine ⟨fun c0 a0 => by simp [Room.createRoom], ?_, hsplit, happend⟩
  intro hnd
  by_cases hany : r.players.any (fun p => p.name == name) = true
  · rcases hsplit hany with ⟨s, p, t, hps, _, _, hres⟩
    rw [hres]
    have : (s ++ { p with socketId := sid } :: t).map Participant.name
        = (s ++ p :: t).map Participant.name := by simp
    show ((s ++ { p with socketId := sid } :: t).map Participant.name).Nodup
    rw [this, ← hps]
    exact hnd
  · have hany2 : r.players.any (fun p => p.name == name) = false := by
      simpa using hany
    rw [happend hany2]
    show ((r.players ++ [(⟨name, none, sid⟩ : Participant)]).map
        Participant.name).Nodup
    rw [List.map_append]
    rw [List.nodup_append]
    refine ⟨hnd, by simp, ?_⟩
    intro a ha hb
    simp only [List.mem_map] at ha
    rcases ha with ⟨p, hp, rfl⟩
    have hb2 : p.name = name := by simpa using hb
    have hc : r.players.any (fun q => q.name == name) = true :=
      List.any_eq_true.mpr ⟨p, hp, by simp [hb2]⟩
    rw [hc] at hany2
    exact absurd hany2 (by simp)

/-- C4 witness: the theorem applied to a concrete two-player room, with the
uniqueness and fresh-name hypotheses discharged there. -/
theorem addPlayer_unique_names_witness :
    ((((Room.mk "R" "A" [⟨"A", none, none⟩, ⟨"B", none, some "s1"⟩]
        false).addPlayer "C" (some "s2")).players.map Participant.name).Nodup)
    ∧ ((Room.mk "R" "A" [⟨"A", none, none⟩, ⟨"B", none, some "s1"⟩]
        false).addPlayer "C" (some "s2")
      = Room.mk "R" "A" [⟨"A", none, none⟩, ⟨"B", none, some "s1"⟩,
          ⟨"C", none, some "s2"⟩] false) :=
  ⟨(addPlayer_unique_names (Room.mk "R" "A" [⟨"A", none, none⟩,
      ⟨"B", none, some "s1"⟩] false) "C" (some "s2")).2.1 (by decide),
   (addPlayer_unique_names (Room.mk "R" "A" [⟨"A", none, none⟩,
      ⟨"B", none, some "s1"⟩] false) "C" (some "s2")).2.2.2 (by decide)⟩

/-- C1 counterexample: in a reachable room the reveal succeeds and is then
followed by a join of a new name (and, in a second reachable room, by a
vote that stores `null`); both leave `revealed = true` with a non-admin
participant whose vote is unset, so the invariant is not preserved by
every post-reveal operation. -/
theorem revealed_invariant_cex :
    (cexRevealJoin.revealed = true
      ∧ ∃ p ∈ cexRevealJoin.players,
          p.name ≠ cexRevealJoin.admin ∧ p.vote = none)
    ∧ (cexRevealNullVote.revealed = true
      ∧ ∃ p ∈ cexRevealNullVote.players,
          p.name ≠ cexRevealNullVote.admin ∧ p.vote = none) := by
  decide

/-- C1 amended: the reveal transition establishes the invariant, and it is
preserved by `removePlayer` (leave) and by `setVote` with a non-null value;
it is not preserved by `addPlayer` of a new name or by `setVote` with
`null` (see the counterexample), until `reset`. -/
theorem revealed_invariant_amended (r : Room) :
    (∀ r2 votes, r.revealCards = (r2, some votes) → VoteInvariant r2)
    ∧ (∀ sid, VoteInvariant r → VoteInvariant (r.removePlayer sid).1)
    ∧ (∀ name v, VoteInvariant r → v ≠ none →
        VoteInvariant (r.setVote name v).1) := by
  refine ⟨?_, ?_, ?_⟩
  · intro r2 votes h
    by_cases hc : (decide
        (0 < (r.players.filter (fun p => p.name != r.admin)).length) &&
        (r.players.filter (fun p => p.name != r.admin)).all
          (fun p => p.vote.isSome)) = true
    · simp only [Room.revealCards] at h
      simp only [hc, if_true] at h
      have hr2 : ({ r with revealed := true } : Room) = r2 :=
        congrArg Prod.fst h
      have hc2 : 0 < (r.players.filter (fun p => p.name != r.admin)).length ∧
          (r.players.filter (fun p => p.name != r.admin)).all
            (fun p => p.vote.isSome) = true := by simpa using hc
      subst hr2
      intro _ p hp hpn
      have hp2 : p ∈ r.players := hp
      have hpn2 : p.name ≠ r.admin := hpn
      have hpf : p ∈ r.players.filter (fun q => q.name != r.admin) :=
        List.mem_filter.mpr ⟨hp2, by simp [hpn2]⟩
      have hsome := List.all_eq_true.mp hc2.2 p hpf
      simp only [Option.isSome_iff_exists] at hsome
      rcases hsome with ⟨v, hv⟩
      simp [hv]
    · simp only [Room.revealCards] at h
      simp only [hc] at h
      simp at h
  · intro sid hinv
    cases hrm : removeFirst (fun p => p.socketId == sid) r.players with
    | none =>
      rw [Room.removePlayer, hrm]
      exact hinv
    | some pr =>
      obtain ⟨x, rest⟩ := pr
      rcases removeFirst_decomp _ r.players x rest hrm with ⟨s, t, hps, hrest, _, _⟩
      rw [Room.removePlayer, hrm]
      intro hrev p hp hpn
      apply hinv hrev p _ hpn
      rw [hps]
      rw [hrest] at hp
      rcases List.mem_append.mp hp with h1 | h2
      · exact List.mem_append.mpr (Or.inl h1)
      · exact List.mem_append.mpr (Or.inr (List.mem_cons_of_mem x h2))
  · intro name v hinv hv
    cases hf : r.players.find? (fun p => p.name == name) with
    | none =>
      rw [Room.setVote, hf]
      exact hinv
    | some player =>
      by_cases hbne : (player.name != r.admin) = true
      · rcases find?_decomp _ r.players player hf with ⟨s, t, hps, hs, hq⟩
        simp only [Room.setVote, hf]
        rw [if_pos hbne, hps]
        rw [updateFirst_append_cons _ _ s player t hs hq]
        intro hrev p hp hpn
        rcases List.mem_append.mp hp with h1 | h2
        · exact hinv hrev p (hps ▸ List.mem_append.mpr (Or.inl h1)) hpn
        · rcases List.mem_cons.mp h2 with rfl | h3
          · simpa using hv
          · exact hinv hrev p
              (hps ▸ List.mem_append.mpr (Or.inr (List.mem_cons_of_mem _ h3)))
              hpn
      · simp only [Room.setVote, hf]
        rw [if_neg hbne]
        exact hinv

/-- C1 amended witness: the reveal-establishes conjunct applied to a
concrete room in which "B" has voted, discharging the success hypothesis
there. -/
theorem revealed_invariant_amended_witness :
    VoteInvariant
      (Room.mk "R" "A" [⟨"A", none, none⟩, ⟨"B", some "5", some "s"⟩] true) :=
  (revealed_invariant_amended (Room.mk "R" "A" [⟨"A", none, none⟩,
    ⟨"B", some "5", some "s"⟩] false)).1
    (Room.mk "R" "A" [⟨"A", none, none⟩, ⟨"B", some "5", some "s"⟩] true)
    [("B", some "5")] (by decide)

/-- C2 counterexample: in a room whose only participant is the admin, no
non-admin participant has an unset vote, yet `revealCards` still refuses
(the code additionally demands at least one non-admin participant), so
"refuses only if some non-admin vote is unset" fails. -/
theorem reveal_refusal_cex :
    ((Room.createRoom "R" "A").revealCards).2 = none
    ∧ ∀ p ∈ (Room.createRoom "R" "A").players,
        p.name ≠ (Room.createRoom "R" "A").admin → p.vote ≠ none := by
  decide

/-- C2 amended: `revealCards` refuses iff the room has no non-admin
participant or some non-admin participant's vote is unset; when at least
one non-admin participant exists and all of them hold non-null votes, it
succeeds, sets `revealed`, and returns the name-to-vote mapping of exactly
the non-admin participants (in player order). -/
theorem reveal_refusal_amended (r : Room) :
    ((r.revealCards).2 = none ↔
      r.players.filter (fun p => p.name != r.admin) = []
      ∨ ∃ p ∈ r.players, p.name ≠ r.admin ∧ p.vote = none)
    ∧ ((r.players.map Participant.name).Nodup →
      r.players.filter (fun p => p.name != r.admin) ≠ [] →
      (∀ p ∈ r.players, p.name ≠ r.admin → p.vote ≠ none) →
      r.revealCards = ({ r with revealed := true },
        some ((r.players.filter (fun p => p.name != r.admin)).map
          (fun p => (p.name, p.vote))))) := by
  constructor
  · by_cases hc : (decide
        (0 < (r.players.filter (fun p => p.name != r.admin)).length) &&
        (r.players.filter (fun p => p.name != r.admin)).all
          (fun p => p.vote.isSome)) = true
    · have hc2 : 0 < (r.players.filter (fun p => p.name != r.admin)).length ∧
          (r.players.filter (fun p => p.name != r.admin)).all
            (fun p => p.vote.isSome) = true := by simpa using hc
      constructor
      · intro hnone
        exfalso
        simp only [Room.revealCards, hc, if_true] at hnone
        simp at hnone
      · intro hor
        exfalso
        rcases hor with hnil | ⟨p, hp, hpn, hv⟩
        · rw [hnil] at hc2
          simp at hc2
        · have hpf : p ∈ r.players.filter (fun q => q.name != r.admin) :=
            List.mem_filter.mpr ⟨hp, by simp [hpn]⟩
          have := List.all_eq_true.mp hc2.2 p hpf
          rw [hv] at this
          simp at this
    · have hnone : (r.revealCards).2 = none := by
        simp only [Room.revealCards, hc]
        simp
      refine ⟨fun _ => ?_, fun _ => hnone⟩
      have hc2 : ¬(0 < (r.players.filter (fun p => p.name != r.admin)).length ∧
          (r.players.filter (fun p => p.name != r.admin)).all
            (fun p => p.vote.isSome) = true) := by
        intro hand
        exact hc (by simp [hand.1, hand.2])
      rcases Decidable.not_and_iff_or_not.mp hc2 with hlen | hall
      · left
        have : (r.players.filter (fun p => p.name != r.admin)).length = 0 := by
          omega
        exact List.length_eq_zero.mp this
      · right
        have : ¬ ∀ p ∈ r.players.filter (fun q => q.name != r.admin),
            p.vote.isSome = true := fun hforall => hall (List.all_eq_true.mpr hforall)
        push_neg at this
        rcases this with ⟨p, hpf, hps⟩
        have hmem := List.mem_filter.mp hpf
        refine ⟨p, hmem.1, by simpa using hmem.2, ?_⟩
        cases hv : p.vote with
        | none => rfl
        | some v => rw [hv] at hps; simp at hps
  · intro hnd hne hall
    have hlen : 0 < (r.players.filter (fun p => p.name != r.admin)).length :=
      List.length_pos.mpr hne
    have hallb : (r.players.filter (fun p => p.name != r.admin)).all
        (fun p => p.vote.isSome) = true := by
      apply List.all_eq_true.mpr
      intro p hpf
      have hmem := List.mem_filter.mp hpf
      have := hall p hmem.1 (by simpa using hmem.2)
      cases hv : p.vote with
      | none => exact absurd hv this
      | some v => simp
    have hc : (decide
        (0 < (r.players.filter (fun p => p.name != r.admin)).length) &&
        (r.players.filter (fun p => p.name != r.admin)).all
          (fun p => p.vote.isSome)) = true := by simp [hlen, hallb]
    have hndf : ((r.players.filter (fun p => p.name != r.admin)).map
        Participant.name).Nodup :=
      ((List.filter_sublist r.players).map Participant.name).nodup hnd
    have hgv : Room.getVotes { r with revealed := true }
        = (r.players.filter (fun p => p.name != r.admin)).map
          (fun p => (p.name, p.vote)) := getVotes_eq _ hndf
    simp only [Room.revealCards, hc, if_true]
    rw [hgv]

/-- C2 amended witness: the theorem applied to a concrete room with one
voted non-admin player, discharging the hypotheses there. -/
theorem reveal_refusal_amended_witness :
    (Room.mk "R" "A" [⟨"A", none, none⟩, ⟨"B", some "5", some "s"⟩]
      false).revealCards
    = (Room.mk "R" "A" [⟨"A", none, none⟩, ⟨"B", some "5", some "s"⟩] true,
       some [("B", some "5")]) :=
  (reveal_refusal_amended (Room.mk "R" "A" [⟨"A", none, none⟩,
    ⟨"B", some "5", some "s"⟩] false)).2 (by decide) (by decide) (by decide)

/-- C7 counterexample: when two participants carry the same socket id (one
socket joined under two names), the second `removePlayer` call with that
socket id removes the second participant and reports `removed = true`, so
the call is not idempotent on every room state. -/
theorem removePlayer_idempotent_cex :
    ((cexTwoSameSid.removePlayer (some "s")).1.removePlayer (some "s")).2
      = { removed := true, wasAdmin := false }
    ∧ ((cexTwoSameSid.removePlayer (some "s")).1.removePlayer (some "s")).1
      ≠ (cexTwoSameSid.removePlayer (some "s")).1 := by
  decide

/-- C7 amended: when at most one participant carries the connection
reference, a second `removePlayer` call with the same reference leaves the
state after the first call unchanged and returns
`{removed: false, wasAdmin: false}`; when no participant carries the
reference, the call is a pure no-op. -/
theorem removePlayer_idempotent_amended (r : Room) (sid : Option String) :
    ((r.players.filter (fun p => p.socketId == sid)).length ≤ 1 →
      (r.removePlayer sid).1.removePlayer sid
        = ((r.removePlayer sid).1, { removed := false, wasAdmin := false }))
    ∧ (r.players.all (fun p => !(p.socketId == sid)) = true →
      r.removePlayer sid = (r, { removed := false, wasAdmin := false })) := by
  have hnoop : ∀ r2 : Room,
      (∀ p ∈ r2.players, (p.socketId == sid) = false) →
      r2.removePlayer sid = (r2, { removed := false, wasAdmin := false }) := by
    intro r2 hall
    rw [Room.removePlayer, removeFirst_of_forall_neg _ r2.players hall]
  constructor
  · intro hle
    cases hrm : removeFirst (fun p => p.socketId == sid) r.players with
    | none =>
      have hfst : (r.removePlayer sid).1 = r := by
        rw [Room.removePlayer, hrm]
      rw [hfst]
      exact hnoop r (forall_neg_of_removeFirst_eq_none _ r.players hrm)
    | some pr =>
      obtain ⟨x, rest⟩ := pr
      rcases removeFirst_decomp _ r.players x rest hrm with ⟨s, t, hps, hrest, hs, hx⟩
      have hfst : (r.removePlayer sid).1 = { r with players := rest } := by
        rw [Room.removePlayer, hrm]
      have hflen : (r.players.filter
          (fun p => p.socketId == sid)).length
          = (t.filter (fun p => p.socketId == sid)).length + 1 := by
        rw [hps, List.filter_append]
        have hfs : s.filter (fun p => p.socketId == sid) = [] :=
          List.filter_eq_nil_iff.mpr (fun a ha => by simp [hs a ha])
        rw [hfs]
        simp [List.filter_cons, hx]
      have htzero : (t.filter (fun p => p.socketId == sid)).length = 0 := by
        omega
      have htneg : ∀ p ∈ t, (p.socketId == sid) = false := by
        intro p hp
        by_contra hc
        have hpt : p ∈ t.filter (fun q => q.socketId == sid) :=
          List.mem_filter.mpr ⟨hp, by simpa using hc⟩
        rw [List.length_eq_zero.mp htzero] at hpt
        simp at hpt
      have hrestneg : ∀ p ∈ rest, (p.socketId == sid) = false := by
        intro p hp
        rw [hrest] at hp
        rcases List.mem_append.mp hp with h1 | h2
        · exact hs p h1
        · exact htneg p h2
      rw [hfst]
      exact hnoop { r with players := rest } hrestneg
  · intro hall
    exact hnoop r (fun p hp => by
      have := List.all_eq_true.mp hall p hp
      simpa using this)

/-- C7 amended witness: the theorem applied to a concrete room where the
socket id occurs once, discharging the count hypothesis there. -/
theorem removePlayer_idempotent_amended_witness :
    ((Room.mk "R" "A" [⟨"A", none, some "sa"⟩, ⟨"B", none, some "s"⟩]
        false).removePlayer (some "s")).1.removePlayer (some "s")
      = (((Room.mk "R" "A" [⟨"A", none, some "sa"⟩, ⟨"B", none, some "s"⟩]
          false).removePlayer (some "s")).1,
         { removed := false, wasAdmin := false }) :=
  (removePlayer_idempotent_amended (Room.mk "R" "A" [⟨"A", none, some "sa"⟩,
    ⟨"B", none, some "s"⟩] false) (some "s")).1 (by decide)

/-- C10: one connection can be bound to two participants.  If a room has no
participant named `n1` or `n2` and none bound to the socket, then joining
as `n1` and then `n2` from the same socket yields two participants sharing
the socket id, and one `removePlayer` call removes only the earliest-joined
(`n1`), leaving `n2` in the room still bound to that socket id. -/
theorem shared_connection_two_participants (r : Room) (n1 n2 sid : String)
    (h1 : ∀ p ∈ r.players, p.name ≠ n1) (h2 : ∀ p ∈ r.players, p.name ≠ n2)
    (hsid : ∀ p ∈ r.players, p.socketId ≠ some sid)
    (hne : n1 ≠ n2) (ha1 : n1 ≠ r.admin) :
    ((((r.addPlayer n1 (some sid)).addPlayer n2
        (some sid)).players.filter (fun p => p.socketId == some sid)).length
      = 2)
    ∧ ((r.addPlayer n1 (some sid)).addPlayer n2 (some sid)).removePlayer
        (some sid)
      = ({ r with players := r.players ++ [⟨n2, none, some sid⟩] },
         { removed := true, wasAdmin := false })
    ∧ (⟨n2, none, some sid⟩ : Participant) ∈
        (((r.addPlayer n1 (some sid)).addPlayer n2
          (some sid)).removePlayer (some sid)).1.players := by
  have hany1 : r.players.any (fun p => p.name == n1) = false := by
    rw [show ∀ b : Bool, b = false ↔ ¬(b = true) from fun b => by simp]
    intro hc
    rcases List.any_eq_true.mp hc with ⟨p, hp, hpe⟩
    exact h1 p hp (by simpa using hpe)
  have hadd1 : r.addPlayer n1 (some sid)
      = { r with players := r.players ++ [⟨n1, none, some sid⟩] } := by
    rw [Room.addPlayer, if_neg (by simp [hany1])]
  have hany2 : (r.players ++ [(⟨n1, none, some sid⟩ : Participant)]).any
      (fun p => p.name == n2) = false := by
    rw [show ∀ b : Bool, b = false ↔ ¬(b = true) from fun b => by simp]
    intro hc
    rcases List.any_eq_true.mp hc with ⟨p, hp, hpe⟩
    rcases List.mem_append.mp hp with hp1 | hp2
    · exact h2 p hp1 (by simpa using hpe)
    · have : p = ⟨n1, none, some sid⟩ := by simpa using hp2
      rw [this] at hpe
      exact hne (by simpa using hpe)
  have hadd2 : (r.addPlayer n1 (some sid)).addPlayer n2 (some sid)
      = { r with players := r.players
          ++ [⟨n1, none, some sid⟩, ⟨n2, none, some sid⟩] } := by
    rw [hadd1, Room.addPlayer]
    rw [if_neg (by simp only [hany2]; simp)]
    simp
  have hfilr : r.players.filter (fun p => p.socketId == some sid) = [] :=
    List.filter_eq_nil_iff.mpr (fun a ha => by simp [hsid a ha])
  have hsneg : ∀ a ∈ r.players, ((fun p : Participant =>
      p.socketId == some sid) a) = false := by
    intro a ha
    simp [hsid a ha]
  refine ⟨?_, ?_, ?_⟩
  · rw [hadd2]
    show ((r.players ++ [(⟨n1, none, some sid⟩ : Participant),
      ⟨n2, none, some sid⟩]).filter
      (fun p => p.socketId == some sid)).length = 2
    rw [List.filter_append, hfilr]
    simp
  · rw [hadd2, Room.removePlayer]
    rw [show (r.players ++ [(⟨n1, none, some sid⟩ : Participant),
          ⟨n2, none, some sid⟩])
        = r.players ++ (⟨n1, none, some sid⟩ : Participant)
          :: [⟨n2, none, some sid⟩] from rfl]
    rw [removeFirst_append_cons _ r.players _ _ hsneg (by simp)]
    simp only []
    congr 1
    simp [ha1]
  · rw [hadd2, Room.removePlayer]
    rw [show (r.players ++ [(⟨n1, none, some sid⟩ : Participant),
          ⟨n2, none, some sid⟩])
        = r.players ++ (⟨n1, none, some sid⟩ : Participant)
          :: [⟨n2, none, some sid⟩] from rfl]
    rw [removeFirst_append_cons _ r.players _ _ hsneg (by simp)]
    simp

/-- C10 witness: the theorem applied to a fresh room whose admin "A" is
unbound, with socket "s" joining as "B" then "C"; the hypotheses are
discharged there. -/
theorem shared_connection_two_participants_witness :
    (((Room.createRoom "R" "A").addPlayer "B" (some "s")).addPlayer "C"
      (some "s")).removePlayer (some "s")
    = ({ Room.createRoom "R" "A" with players :=
          (Room.createRoom "R" "A").players ++ [⟨"C", none, some "s"⟩] },
       { removed := true, wasAdmin := false }) :=
  (shared_connection_two_participants (Room.createRoom "R" "A") "B" "C" "s"
    (by decide) (by decide) (by decide) (by decide) (by decide)).2.1

/-- C6: error atomicity.  Each detected failure (create on an existing
code, join of a missing room, join with the admin's name, reveal refused)
emits exactly one private error to the calling socket and leaves the
directory unchanged; a reveal or reset from a socket not bound to the
admin mutates nothing and emits nothing. -/
theorem error_atomicity (rooms : Directory) (sid userName roomCode : String)
    (r : Room) :
    (mapHas rooms roomCode = true →
      handleCreateRoom rooms sid userName roomCode
        = (rooms, [.errorTo sid "Room already exists"]))
    ∧ (mapGet rooms roomCode = none →
      handleJoinRoom rooms sid userName roomCode
        = (rooms, [.errorTo sid "Room does not exist"]))
    ∧ (mapGet rooms roomCode = some r → userName = r.admin →
      handleJoinRoom rooms sid userName roomCode
        = (rooms, [.errorTo sid "Name already taken (admin)"]))
    ∧ (mapGet rooms roomCode = some r →
      (∃ p, r.players.find? (fun q => q.socketId == some sid) = some p ∧
        p.name = r.admin) →
      (r.revealCards).2 = none →
      handleRevealCards rooms sid roomCode
        = (rooms, [.errorTo sid
            "Cannot reveal cards. Not all players have voted."]))
    ∧ (mapGet rooms roomCode = some r →
      (∀ p, r.players.find? (fun q => q.socketId == some sid) = some p →
        p.name ≠ r.admin) →
      handleRevealCards rooms sid roomCode = (rooms, [])
      ∧ handleResetRoom rooms sid roomCode = (rooms, [])) := by
  refine ⟨?_, ?_, ?_, ?_, ?_⟩
  · intro hhas
    rw [handleCreateRoom, if_pos hhas]
  · intro hget
    rw [handleJoinRoom]
    rw [hget]
  · intro hget hadm
    rw [handleJoinRoom]
    rw [hget]
    simp only []
    rw [if_pos (by simp [hadm])]
  · intro hget hfind hrc
    rcases hfind with ⟨p, hf, hpa⟩
    rw [handleRevealCards, hget]
    simp only []
    rw [hf]
    simp only []
    rw [if_pos (by simp [hpa])]
    rcases hpair : r.revealCards with ⟨r2, v⟩
    rw [hpair] at hrc
    simp at hrc
    subst hrc
    rfl
  · intro hget hnadm
    cases hf : r.players.find? (fun q => q.socketId == some sid) with
    | none =>
      constructor
      · rw [handleRevealCards, hget]
        simp only []
        rw [hf]
      · rw [handleResetRoom, hget]
        simp only []
        rw [hf]
    | some p =>
      have hpa : (p.name == r.admin) = false := by
        simp [hnadm p hf]
      constructor
      · rw [handleRevealCards, hget]
        simp only []
        rw [hf]
        simp only []
        rw [if_neg (by simp [hpa])]
      · rw [handleResetRoom, hget]
        simp only []
        rw [hf]
        simp only []
        rw [if_neg (by simp [hpa])]

/-- C6 witness: each failure conjunct applied to a concrete one-room
directory, with every hypothesis discharged there. -/
theorem error_atomicity_witness :
    (handleCreateRoom dirW "sx" "Z" "R"
      = (dirW, [.errorTo "sx" "Room already exists"]))
    ∧ (handleJoinRoom dirW "sx" "Z" "X"
      = (dirW, [.errorTo "sx" "Room does not exist"]))
    ∧ (handleJoinRoom dirW "sx" "A" "R"
      = (dirW, [.errorTo "sx" "Name already taken (admin)"]))
    ∧ (handleRevealCards dirW "sa" "R"
      = (dirW, [.errorTo "sa"
          "Cannot reveal cards. Not all players have voted."]))
    ∧ (handleRevealCards dirW "sb" "R" = (dirW, [])
      ∧ handleResetRoom dirW "sb" "R" = (dirW, [])) :=
  ⟨(error_atomicity dirW "sx" "Z" "R" roomW).1 (by decide),
   (error_atomicity dirW "sx" "Z" "X" roomW).2.1 (by decide),
   (error_atomicity dirW "sx" "A" "R" roomW).2.2.1 (by decide) (by decide),
   (error_atomicity dirW "sa" "Z" "R" roomW).2.2.2.1 (by decide)
     ⟨⟨"A", none, some "sa"⟩, by decide, by decide⟩ (by decide),
   (error_atomicity dirW "sb" "Z" "R" roomW).2.2.2.2 (by decide)
     (by
       intro p hp
       rw [show roomW.players.find?
             (fun q => q.socketId == some "sb")
           = some ⟨"B", none, some "sb"⟩ from by decide] at hp
       cases Option.some_inj.mp hp
       decide)⟩

/-- C5: for a room in the directory, a leave or a disconnect for the socket
whose first match in the player list is the admin always deletes the room
from the directory; a leave or a disconnect for a socket whose first match
is a non-admin player, while a participant named the admin is present,
never deletes the room. -/
theorem admin_leave_destroys_room (rooms : Directory) (sid c : String)
    (r : Room) (hnd : (rooms.map Prod.fst).Nodup)
    (hget : mapGet rooms c = some r) :
    (∀ pa, r.players.find? (fun p => p.socketId == some sid) = some pa →
      pa.name = r.admin →
      mapGet (handleLeaveRoom rooms sid c).1 c = none
      ∧ mapGet (handleDisconnect rooms sid).1 c = none)
    ∧ (∀ pb, r.players.find? (fun p => p.socketId == some sid) = some pb →
      pb.name ≠ r.admin →
      (∃ q ∈ r.players, q.name = r.admin) →
      (mapGet (handleLeaveRoom rooms sid c).1 c).isSome = true
      ∧ (mapGet (handleDisconnect rooms sid).1 c).isSome = true) := by
  have hdisc := mapGet_handleDisconnect sid c rooms hnd
  constructor
  · intro pa hf hpa
    rcases find?_decomp _ r.players pa hf with ⟨s, t, hps, hs, hx⟩
    have hrp : r.removePlayer (some sid)
        = ({ r with players := s ++ t },
           { removed := true, wasAdmin := true }) := by
      rw [Room.removePlayer, hps, removeFirst_append_cons _ s pa t hs hx]
      simp [hpa]
    constructor
    · simp only [handleLeaveRoom, hget, hrp]
      exact mapGet_mapDelete_self rooms c hnd
    · rw [hdisc, hget]
      simp only [Option.some_bind, disconnectRoomUpdate, hrp]
      rfl
  · intro pb hf hpb hq
    rcases find?_decomp _ r.players pb hf with ⟨s, t, hps, hs, hx⟩
    have hrp : r.removePlayer (some sid)
        = ({ r with players := s ++ t },
           { removed := true, wasAdmin := false }) := by
      rw [Room.removePlayer, hps, removeFirst_append_cons _ s pb t hs hx]
      simp [hpb]
    rcases hq with ⟨q, hqmem, hqa⟩
    have hqne : q ≠ pb := fun he => hpb (he ▸ hqa)
    have hqrest : q ∈ s ++ t := by
      rw [hps] at hqmem
      rcases List.mem_append.mp hqmem with h1 | h2
      · exact List.mem_append.mpr (Or.inl h1)
      · rcases List.mem_cons.mp h2 with rfl | h3
        · exact absurd rfl hqne
        · exact List.mem_append.mpr (Or.inr h3)
    have hpos : 0 < (s ++ t).length := List.length_pos.mpr
      (fun he => by rw [he] at hqrest; simp at hqrest)
    have hlen : ((s ++ t).length == 0) = false := by
      simp only [beq_eq_false_iff_ne]
      omega
    constructor
    · simp only [handleLeaveRoom, hget, hrp, hlen]
      simp [mapGet_mapSet_self]
    · rw [hdisc, hget]
      simp only [Option.some_bind, disconnectRoomUpdate, hrp, hlen]
      rfl

/-- C5 witness: both conjuncts applied to a concrete one-room directory —
the admin's socket leaving deletes the room, player "B" leaving keeps it —
with all hypotheses discharged there. -/
theorem admin_leave_destroys_room_witness :
    mapGet (handleLeaveRoom dirW "sa" "R").1 "R" = none
    ∧ (mapGet (handleLeaveRoom dirW "sb" "R").1 "R").isSome = true :=
  ⟨((admin_leave_destroys_room dirW "sa" "R" roomW (by decide) (by decide)).1
      ⟨"A", none, some "sa"⟩ (by decide) (by decide)).1,
   ((admin_leave_destroys_room dirW "sb" "R" roomW (by decide) (by decide)).2
      ⟨"B", none, some "sb"⟩ (by decide) (by decide)
      ⟨⟨"A", none, some "sa"⟩, by decide, by decide⟩).1⟩
